import Mathlib

/-!
Verification of the time-shift risk-bump subsystem (`src/risk/bumptime.rs`
of QuantMath): `BumpTime::apply` and `BumpTime::update_instruments`.

The embedding is shallow:
* `Date` is `Int`; a `DateTime` is a date together with a time of day.
* `f64` values are never computed with by this subsystem (they are only
  fetched from the pricing context and copied into the fixing map), so they
  are modelled by `Int`, which keeps equality decidable.
* Fallible Rust functions returning `Result<T, qm::Error>` become
  `Except Error T`.
* The mutable `Vec<(f64, Rc<Instrument>)>` of instruments is threaded
  explicitly: each operation returns the final state of the vector.
* Calls into external collaborators (curve/spot resolution, fixing-table
  construction, restatement, the saveable scope and the generic bump) are
  recorded in a trace of `Event`s so that counting claims can be stated.

Instruments are abstract: everything is parametrised by a type `Inst`
standing for `Rc<Instrument>` handles (cloning an `Rc` yields the same
handle, so `clone` is the identity here).
-/

set_option autoImplicit false

namespace QuantMath

/-- Underlying/instrument identifiers (`&str` ids in the Rust source). -/
abbrev Ident := String

/-- `dates::Date`, modelled as an integer day count (only ordering and
equality of dates are used by the source). -/
abbrev Date := Int

/-- `dates::datetime::DateTime`: a date plus a time of day.  The source
compares only the `date()` part against the spot-date window but stores the
full `DateTime` in the fixing map. -/
structure DateTime where
  date : Date
  time : Nat
deriving DecidableEq, Repr

/-- Market values (`f64` in the source; no arithmetic is performed on them
by this subsystem, so an integer stand-in is faithful). -/
abbrev Value := Int

/-- `qm::Error`, modelled as a message. -/
abbrev Error := String

/-- `data::bumpspotdate::SpotDynamics`: how a not-yet-observed fixing is
valued when the spot date moves past it. -/
inductive SpotDynamics where
  | StickyForward
  | StickySpot
deriving DecidableEq, Repr

/-- `data::bumpspotdate::BumpSpotDate`: the target spot date and the chosen
spot dynamics. -/
structure BumpSpotDate where
  spot_date : Date
  spot_dynamics : SpotDynamics
deriving DecidableEq, Repr

/-- `BumpSpotDate::new`. -/
def BumpSpotDate.new (spot_date : Date) (spot_dynamics : SpotDynamics) : BumpSpotDate :=
  { spot_date := spot_date, spot_dynamics := spot_dynamics }

/-- `data::bump::Bump`, restricted to the one variant this subsystem
constructs (`Bump::new_spot_date`). -/
inductive Bump where
  | spotDate (b : BumpSpotDate)
deriving DecidableEq, Repr

/-- `Bump::new_spot_date`. -/
def Bump.new_spot_date (b : BumpSpotDate) : Bump :=
  Bump.spotDate b

/-- `risk::bumptime::BumpTime`: the spot-date bump plus the (unused)
ex-from date. -/
structure BumpTime where
  spot_date_bump : BumpSpotDate
  _ex_from : Date
deriving DecidableEq, Repr

/-- `BumpTime::new`. -/
def BumpTime.new (spot_date : Date) (ex_from : Date) (spot_dynamics : SpotDynamics) : BumpTime :=
  { spot_date_bump := BumpSpotDate.new spot_date spot_dynamics, _ex_from := ex_from }

/-- A forward curve as used by the source: `curve.forward(date)` may fail. -/
structure ForwardCurve where
  forward : Date → Except Error Value

/-- `instruments::PricingContext`, at the boundary this subsystem uses:
the current spot date, fallible spot lookup by identifier, and fallible
forward-curve resolution for an instrument anchored at a date. -/
structure PricingContext (Inst : Type) where
  spot_date : Date
  spot : Ident → Except Error Value
  forward_curve : Inst → Date → Except Error ForwardCurve

/-- `risk::dependencies::DependencyCollector`, at the boundary this
subsystem uses: `instruments_iter()` yields (id, instrument) pairs in a
fixed order, and `fixings(id)` yields the ordered fixing dates the
instrument with that id depends on. -/
structure DependencyCollector (Inst : Type) where
  instruments : List (Ident × Inst)
  fixings : Ident → List DateTime

/-- The `HashMap<String, Vec<(DateTime, f64)>>` the scan builds, modelled
as an association list with unique keys: `push` mirrors
`map.entry(id).or_insert(Vec::new()).push(p)`. -/
abbrev FixingMap := List (Ident × List (DateTime × Value))

/-- `entry(id).or_insert(vec![]).push(p)`: append `p` to the sequence at
key `id`, creating the entry if absent. -/
def FixingMap.push (m : FixingMap) (id : Ident) (p : DateTime × Value) : FixingMap :=
  match m with
  | [] => [(id, [p])]
  | (k, v) :: rest =>
    if k = id then (k, v ++ [p]) :: rest else (k, v) :: FixingMap.push rest id p

/-- Lookup of the sequence stored at a key (first occurrence). -/
def FixingMap.lookupSeq (m : FixingMap) (id : Ident) : Option (List (DateTime × Value)) :=
  match m with
  | [] => none
  | (k, v) :: rest => if k = id then some v else FixingMap.lookupSeq rest id

/-- The sequence stored at a key, defaulting to the empty sequence. -/
def FixingMap.seqOf (m : FixingMap) (id : Ident) : List (DateTime × Value) :=
  (m.lookupSeq id).getD []

/-- Modelled from the spec: `data::fixings::FixingTable` is outside the
given source; the spec describes it as an immutable table built from an
id-to-(date,value)-sequence mapping anchored at the new spot date. -/
structure FixingTable where
  spot_date : Date
  map : FixingMap

/-- Modelled from the spec: the external collaborators
`FixingTable::from_map` ("fails on malformed input") and
`instruments::fix_all` (the restatement function: "pure function; fails if
an instrument cannot reconcile the given fixings").  Both live outside the
given source, so they are arbitrary fallible functions here. -/
structure Externals (Inst : Type) where
  from_map : Date → FixingMap → Except Error FixingTable
  fix_all : List (Value × Inst) → FixingTable → Except Error (List (Value × Inst))

/-- Modelled from the spec: the `risk::Bumpable` trait at the boundary this
subsystem uses: `context()`, `dependencies()` (may fail), `new_saveable()`
and `bump(...)` (may fail).  The model state mutated by `bump` is not
observable to this subsystem, so only the call's success or failure is
modelled; the saveable acquisition and the bump application are recorded as
trace events. -/
structure Bumpable (Inst : Type) where
  context : PricingContext Inst
  dependencies : Except Error (DependencyCollector Inst)
  bump : Bump → Except Error Unit

/-- Trace events: calls made to external collaborators. -/
inductive Event (Inst : Type) where
  | resolveForwardCurve (inst : Inst) (anchor : Date)
  | resolveSpot (id : Ident)
  | buildFixingTable (anchor : Date) (map : FixingMap)
  | restate
  | newSaveable
  | applyBump (b : Bump)
deriving DecidableEq, Repr

/-- The window test of the source:
`date >= old_spot_date && date < new_spot_date`. -/
def inWindow (old_spot_date new_spot_date : Date) (dt : DateTime) : Bool :=
  decide (dt.date ≥ old_spot_date) && decide (dt.date < new_spot_date)

variable {Inst : Type}

/-- The `match self.spot_date_bump.spot_dynamics()` arm of the scan loop:
the value synthesised for one selected fixing, together with the
resolution calls it makes.  `StickyForward` resolves
`context.forward_curve(instrument, new_spot_date)` and evaluates
`curve.forward(date)`; `StickySpot` resolves `context.spot(id)`. -/
def policyValue (context : PricingContext Inst) (dyn : SpotDynamics)
    (new_spot_date : Date) (id : Ident) (instrument : Inst) (date : Date) :
    List (Event Inst) × Except Error Value :=
  match dyn with
  | SpotDynamics.StickyForward =>
    ([Event.resolveForwardCurve instrument new_spot_date],
      match context.forward_curve instrument new_spot_date with
      | Except.error e => Except.error e
      | Except.ok curve => curve.forward date)
  | SpotDynamics.StickySpot =>
    ([Event.resolveSpot id], context.spot id)

/-- The inner loop of `update_instruments`: scan the fixing dates of one
(id, instrument) pair, pushing `(fixing, value)` for each date inside
`[old_spot_date, new_spot_date)` and propagating the first resolution
failure. -/
def scanFixingsOf (context : PricingContext Inst) (dyn : SpotDynamics)
    (old_spot_date new_spot_date : Date) (id : Ident) (instrument : Inst) :
    List DateTime → FixingMap → List (Event Inst) × Except Error FixingMap
  | [], acc => ([], Except.ok acc)
  | fixing :: rest, acc =>
    if inWindow old_spot_date new_spot_date fixing then
      match policyValue context dyn new_spot_date id instrument fixing.date with
      | (tr, Except.error e) => (tr, Except.error e)
      | (tr, Except.ok value) =>
        let next := scanFixingsOf context dyn old_spot_date new_spot_date id instrument rest
          (FixingMap.push acc id (fixing, value))
        (tr ++ next.1, next.2)
    else
      scanFixingsOf context dyn old_spot_date new_spot_date id instrument rest acc

/-- The outer loop of `update_instruments`: scan every (id, instrument)
pair yielded by `dependencies.instruments_iter()`. -/
def scanAll (context : PricingContext Inst) (dyn : SpotDynamics)
    (old_spot_date new_spot_date : Date) (fixings : Ident → List DateTime) :
    List (Ident × Inst) → FixingMap → List (Event Inst) × Except Error FixingMap
  | [], acc => ([], Except.ok acc)
  | (id, instrument) :: rest, acc =>
    match scanFixingsOf context dyn old_spot_date new_spot_date id instrument
        (fixings id) acc with
    | (tr, Except.error e) => (tr, Except.error e)
    | (tr, Except.ok acc2) =>
      let next := scanAll context dyn old_spot_date new_spot_date fixings rest acc2
      (tr ++ next.1, next.2)

/-- `BumpTime::update_instruments`.  Returns the trace of external calls,
the final state of the instruments vector, and the result
(`Ok(any_changes)` or the propagated error).  The vector is replaced
(`clear` then `append`) only after `from_map` and `fix_all` both
succeed. -/
def BumpTime.update_instruments (self : BumpTime) (ext : Externals Inst)
    (instruments : List (Value × Inst)) (context : PricingContext Inst)
    (dependencies : DependencyCollector Inst) :
    List (Event Inst) × List (Value × Inst) × Except Error Bool :=
  let old_spot_date := context.spot_date
  let new_spot_date := self.spot_date_bump.spot_date
  match scanAll context self.spot_date_bump.spot_dynamics old_spot_date new_spot_date
      dependencies.fixings dependencies.instruments [] with
  | (tr, Except.error e) => (tr, instruments, Except.error e)
  | (tr, Except.ok fixing_map) =>
    let any_changes := !fixing_map.isEmpty
    if any_changes then
      match ext.from_map new_spot_date fixing_map with
      | Except.error e =>
        (tr ++ [Event.buildFixingTable new_spot_date fixing_map], instruments, Except.error e)
      | Except.ok fixing_table =>
        match ext.fix_all instruments fixing_table with
        | Except.error e =>
          (tr ++ [Event.buildFixingTable new_spot_date fixing_map, Event.restate],
            instruments, Except.error e)
        | Except.ok replacement =>
          (tr ++ [Event.buildFixingTable new_spot_date fixing_map, Event.restate],
            replacement, Except.ok true)
    else
      (tr, instruments, Except.ok false)

/-- `BumpTime::apply`.  Obtains the dependency model (may fail), runs
`update_instruments`, and if the vector was not modified applies the
generic spot-date bump inside a saveable scope. -/
def BumpTime.apply (self : BumpTime) (ext : Externals Inst)
    (instruments : List (Value × Inst)) (bumpable : Bumpable Inst) :
    List (Event Inst) × List (Value × Inst) × Except Error Bool :=
  match bumpable.dependencies with
  | Except.error e => ([], instruments, Except.error e)
  | Except.ok deps =>
    match self.update_instruments ext instruments bumpable.context deps with
    | (tr, insts, Except.error e) => (tr, insts, Except.error e)
    | (tr, insts, Except.ok modified) =>
      if !modified then
        let bump := Bump.new_spot_date self.spot_date_bump
        match bumpable.bump bump with
        | Except.error e =>
          (tr ++ [Event.newSaveable, Event.applyBump bump], insts, Except.error e)
        | Except.ok _ =>
          (tr ++ [Event.newSaveable, Event.applyBump bump], insts, Except.ok false)
      else
        (tr, insts, Except.ok modified)

/-! ### Concrete fixtures (used to witness the theorems on real inputs) -/

/-- Example pricing context: spot date day 10, spot of EUR is 110, the
forward of any instrument at date d is d. -/
def exCtx : PricingContext String :=
  { spot_date := 10
    spot := fun id => if id = "EUR" then Except.ok 110 else Except.error "no spot"
    forward_curve := fun _ _ => Except.ok { forward := fun d => Except.ok d } }

/-- Example dependency model: one instrument, id EUR, one fixing at day 12. -/
def exDeps : DependencyCollector String :=
  { instruments := [("EUR", "eurInst")]
    fixings := fun id => if id = "EUR" then [{ date := 12, time := 0 }] else [] }

/-- Example bump: move the spot date to day 15 under sticky-spot dynamics. -/
def exBump : BumpTime :=
  BumpTime.new 15 15 SpotDynamics.StickySpot

/-- Example external collaborators: table construction and restatement that
always succeed (restatement returns the portfolio unchanged). -/
def exExternals : Externals String :=
  { from_map := fun d m => Except.ok { spot_date := d, map := m }
    fix_all := fun insts _ => Except.ok insts }

/-- Example portfolio: one unit of the EUR instrument. -/
def exInstruments : List (Value × String) :=
  [(1, "eurInst")]

/-- Example bumpable model built from the example context and dependency
model, whose generic bump always succeeds. -/
def exBumpable : Bumpable String :=
  { context := exCtx
    dependencies := Except.ok exDeps
    bump := fun _ => Except.ok () }

/-- Dependency model with two in-window fixings (days 12 and 13) for the
same instrument, id AAPL. -/
def exFwdDeps : DependencyCollector String :=
  { instruments := [("AAPL", "aaplInst")]
    fixings := fun id =>
      if id = "AAPL" then [{ date := 12, time := 0 }, { date := 13, time := 0 }] else [] }

/-- Bump to day 15 under sticky-forward dynamics. -/
def exFwdBump : BumpTime :=
  BumpTime.new 15 15 SpotDynamics.StickyForward

/-- A pricing context whose spot and curve resolution always fail. -/
def exErrCtx : PricingContext String :=
  { spot_date := 10
    spot := fun _ => Except.error "spot unavailable"
    forward_curve := fun _ _ => Except.error "curve unavailable" }

/-- Bumpable model over the failing context. -/
def exErrBumpable : Bumpable String :=
  { context := exErrCtx
    dependencies := Except.ok exDeps
    bump := fun _ => Except.ok () }

/-! ### Specification-side helper definitions used by the theorems -/

/-- Does this event record an application of a generic bump to the model? -/
def Event.isApplyBump : Event Inst → Bool
  | Event.applyBump _ => true
  | _ => false

/-- Does this event record a forward-curve resolution? -/
def Event.isResolveFwd : Event Inst → Bool
  | Event.resolveForwardCurve _ _ => true
  | _ => false

/-- Does this event record a spot or forward-curve resolution? -/
def Event.isResolve : Event Inst → Bool
  | Event.resolveForwardCurve _ _ => true
  | Event.resolveSpot _ => true
  | _ => false

/-- Does this event record a `FixingTable` construction? -/
def Event.isBuild : Event Inst → Bool
  | Event.buildFixingTable _ _ => true
  | _ => false

/-- The pairs one (id, instrument) pair contributes to the fixing map:
its fixing dates inside the window, each paired with the value its policy
resolution yields (dates whose resolution fails contribute nothing; a
successful scan resolves every selected date). -/
def collectedOf (context : PricingContext Inst) (dyn : SpotDynamics)
    (old_spot_date new_spot_date : Date) (id : Ident) (instrument : Inst)
    (fixings : List DateTime) : List (DateTime × Value) :=
  fixings.filterMap (fun fixing =>
    if inWindow old_spot_date new_spot_date fixing then
      match (policyValue context dyn new_spot_date id instrument fixing.date).2 with
      | Except.ok v => some (fixing, v)
      | Except.error _ => none
    else none)

/-- The whole sequence collected for identifier `q` over a list of
(id, instrument) pairs, in discovery order. -/
def collectedAll (context : PricingContext Inst) (dyn : SpotDynamics)
    (old_spot_date new_spot_date : Date) (fixings : Ident → List DateTime) :
    List (Ident × Inst) → Ident → List (DateTime × Value)
  | [], _ => []
  | (id, instrument) :: rest, q =>
    (if id = q then collectedOf context dyn old_spot_date new_spot_date id instrument (fixings id)
      else [])
      ++ collectedAll context dyn old_spot_date new_spot_date fixings rest q

/-- Merge a sequence of newly collected pairs onto an optional existing
entry: absent stays absent when nothing is collected, otherwise the pairs
are appended. -/
def mergeAt (o : Option (List (DateTime × Value))) (l : List (DateTime × Value)) :
    Option (List (DateTime × Value)) :=
  match o with
  | some s => some (s ++ l)
  | none => if l.isEmpty then none else some l

/-! ### Basic lemmas about the helpers -/

theorem mergeAt_nil (o : Option (List (DateTime × Value))) : mergeAt o [] = o := by
  cases o <;> simp [mergeAt]

theorem mergeAt_cons (o : Option (List (DateTime × Value))) (p : DateTime × Value)
    (l : List (DateTime × Value)) : mergeAt o (p :: l) = some (o.getD [] ++ p :: l) := by
  cases o <;> simp [mergeAt]

theorem mergeAt_getD (o : Option (List (DateTime × Value))) (l : List (DateTime × Value)) :
    (mergeAt o l).getD [] = o.getD [] ++ l := by
  cases o with
  | some s => simp [mergeAt]
  | none =>
    cases l with
    | nil => simp [mergeAt]
    | cons p rest => simp [mergeAt]

theorem mergeAt_assoc (o : Option (List (DateTime × Value)))
    (l1 l2 : List (DateTime × Value)) :
    mergeAt (mergeAt o l1) l2 = mergeAt o (l1 ++ l2) := by
  cases o with
  | some s => simp [mergeAt]
  | none =>
    cases l1 with
    | nil => simp [mergeAt]
    | cons p rest => simp [mergeAt]

theorem mergeAt_none_eq_some {l s : List (DateTime × Value)}
    (h : mergeAt none l = some s) : l = s ∧ l ≠ [] := by
  cases l with
  | nil => simp [mergeAt] at h
  | cons p rest =>
    simp [mergeAt] at h
    exact ⟨h, by simp⟩

theorem lookupSeq_push (m : FixingMap) (q id : Ident) (p : DateTime × Value) :
    (FixingMap.push m id p).lookupSeq q
      = if q = id then some ((m.lookupSeq id).getD [] ++ [p]) else m.lookupSeq q := by
  induction m with
  | nil =>
    by_cases hq : q = id
    · subst hq; simp [FixingMap.push, FixingMap.lookupSeq]
    · simp [FixingMap.push, FixingMap.lookupSeq, hq, Ne.symm hq]
  | cons e rest ih =>
    obtain ⟨k, v⟩ := e
    by_cases hk : k = id
    · subst hk
      by_cases hq : q = k
      · subst hq; simp [FixingMap.push, FixingMap.lookupSeq]
      · simp [FixingMap.push, FixingMap.lookupSeq, hq, Ne.symm hq]
    · by_cases hq : k = q
      · subst hq
        have hqid : ¬ k = id := hk
        simp [FixingMap.push, FixingMap.lookupSeq, hk, hqid]
      · have hq' : ¬ q = k := fun h => hq h.symm
        simp [FixingMap.push, FixingMap.lookupSeq, hk, hq, hq', ih]

theorem mem_collectedOf {context : PricingContext Inst} {dyn : SpotDynamics}
    {old_spot_date new_spot_date : Date} {id : Ident} {instrument : Inst}
    {fixings : List DateTime} {dt : DateTime} {v : Value} :
    (dt, v) ∈ collectedOf context dyn old_spot_date new_spot_date id instrument fixings ↔
      dt ∈ fixings ∧ inWindow old_spot_date new_spot_date dt = true ∧
        (policyValue context dyn new_spot_date id instrument dt.date).2 = Except.ok v := by
  constructor
  · intro h
    simp only [collectedOf, List.mem_filterMap] at h
    obtain ⟨f, hf, heq⟩ := h
    by_cases hw : inWindow old_spot_date new_spot_date f
    · simp only [hw, if_true] at heq
      cases hv : (policyValue context dyn new_spot_date id instrument f.date).2 with
      | error e => rw [hv] at heq; simp at heq
      | ok w =>
        rw [hv] at heq
        simp only [Option.some.injEq, Prod.mk.injEq] at heq
        obtain ⟨hfd, hvw⟩ := heq
        subst hfd; subst hvw
        exact ⟨hf, hw, hv⟩
    · simp [hw] at heq
  · rintro ⟨hmem, hw, hok⟩
    simp only [collectedOf, List.mem_filterMap]
    refine ⟨dt, hmem, ?_⟩
    simp [hw, hok]

theorem mem_collectedAll {context : PricingContext Inst} {dyn : SpotDynamics}
    {old_spot_date new_spot_date : Date} {fixings : Ident → List DateTime}
    {pairs : List (Ident × Inst)} {q : Ident} {p : DateTime × Value} :
    p ∈ collectedAll context dyn old_spot_date new_spot_date fixings pairs q ↔
      ∃ instrument, (q, instrument) ∈ pairs ∧
        p ∈ collectedOf context dyn old_spot_date new_spot_date q instrument (fixings q) := by
  induction pairs with
  | nil => simp [collectedAll]
  | cons e rest ih =>
    obtain ⟨id, instrument⟩ := e
    by_cases hid : id = q
    · subst hid
      simp only [collectedAll, if_true, List.mem_append, ih, List.mem_cons]
      constructor
      · rintro (h | ⟨i2, hmem, hcol⟩)
        · exact ⟨instrument, Or.inl rfl, h⟩
        · exact ⟨i2, Or.inr hmem, hcol⟩
      · rintro ⟨i2, hmem | hmem, hcol⟩
        · rw [Prod.mk.injEq] at hmem
          exact Or.inl (hmem.2 ▸ hcol)
        · exact Or.inr ⟨i2, hmem, hcol⟩
    · simp only [collectedAll, hid, if_false, List.nil_append, ih, List.mem_cons]
      constructor
      · rintro ⟨i2, hmem, hcol⟩
        exact ⟨i2, Or.inr hmem, hcol⟩
      · rintro ⟨i2, hmem | hmem, hcol⟩
        · exact absurd (congrArg Prod.fst hmem).symm hid
        · exact ⟨i2, hmem, hcol⟩

theorem policyValue_events (context : PricingContext Inst) (dyn : SpotDynamics)
    (new_spot_date : Date) (id : Ident) (instrument : Inst) (date : Date) :
    ∀ e ∈ (policyValue context dyn new_spot_date id instrument date).1, e.isResolve = true := by
  cases dyn <;> simp [policyValue, Event.isResolve]

theorem policyValue_fwd_count (context : PricingContext Inst)
    (new_spot_date : Date) (id : Ident) (instrument : Inst) (date : Date) :
    ((policyValue context SpotDynamics.StickyForward new_spot_date id instrument date).1).countP
      Event.isResolveFwd = 1 := by
  simp [policyValue, Event.isResolveFwd]

theorem collectedOf_nil (context : PricingContext Inst) (dyn : SpotDynamics)
    (old_spot_date new_spot_date : Date) (id : Ident) (instrument : Inst) :
    collectedOf context dyn old_spot_date new_spot_date id instrument [] = [] := rfl

theorem collectedOf_cons_in {context : PricingContext Inst} {dyn : SpotDynamics}
    {old_spot_date new_spot_date : Date} {id : Ident} {instrument : Inst}
    {fixing : DateTime} {rest : List DateTime} {v : Value}
    (hw : inWindow old_spot_date new_spot_date fixing = true)
    (hok : (policyValue context dyn new_spot_date id instrument fixing.date).2 = Except.ok v) :
    collectedOf context dyn old_spot_date new_spot_date id instrument (fixing :: rest)
      = (fixing, v) :: collectedOf context dyn old_spot_date new_spot_date id instrument rest := by
  simp [collectedOf, List.filterMap_cons, hw, hok]

theorem collectedOf_cons_out {context : PricingContext Inst} {dyn : SpotDynamics}
    {old_spot_date new_spot_date : Date} {id : Ident} {instrument : Inst}
    {fixing : DateTime} {rest : List DateTime}
    (hw : inWindow old_spot_date new_spot_date fixing = false) :
    collectedOf context dyn old_spot_date new_spot_date id instrument (fixing :: rest)
      = collectedOf context dyn old_spot_date new_spot_date id instrument rest := by
  simp [collectedOf, List.filterMap_cons, hw]

theorem inWindow_iff (old_spot_date new_spot_date : Date) (dt : DateTime) :
    inWindow old_spot_date new_spot_date dt = true ↔
      old_spot_date ≤ dt.date ∧ dt.date < new_spot_date := by
  simp [inWindow, ge_iff_le]

/-! ### Characterisation of the inner scan loop -/

theorem scanFixingsOf_ok_lookup {context : PricingContext Inst} {dyn : SpotDynamics}
    {old_spot_date new_spot_date : Date} {id : Ident} {instrument : Inst}
    {fixings : List DateTime} {acc : FixingMap} {tr : List (Event Inst)} {m : FixingMap}
    (h : scanFixingsOf context dyn old_spot_date new_spot_date id instrument fixings acc
      = (tr, Except.ok m)) (q : Ident) :
    m.lookupSeq q = if q = id
      then mergeAt (acc.lookupSeq id)
        (collectedOf context dyn old_spot_date new_spot_date id instrument fixings)
      else acc.lookupSeq q := by
  induction fixings generalizing acc tr with
  | nil =>
    simp only [scanFixingsOf, Prod.mk.injEq, Except.ok.injEq] at h
    obtain ⟨-, h2⟩ := h
    subst h2
    by_cases hq : q = id
    · subst hq; simp [collectedOf_nil, mergeAt_nil]
    · simp [hq]
  | cons fixing rest ih =>
    by_cases hw : inWindow old_spot_date new_spot_date fixing = true
    · rcases hpv : policyValue context dyn new_spot_date id instrument fixing.date with ⟨tr1, r1⟩
      cases r1 with
      | error e =>
        simp only [scanFixingsOf, hw, if_true, hpv] at h
        simp at h
      | ok v =>
        rcases hnext : scanFixingsOf context dyn old_spot_date new_spot_date id instrument rest
            (FixingMap.push acc id (fixing, v)) with ⟨tr2, r2⟩
        simp only [scanFixingsOf, hw, if_true, hpv, hnext, Prod.mk.injEq] at h
        obtain ⟨-, h2⟩ := h
        subst h2
        have hok : (policyValue context dyn new_spot_date id instrument fixing.date).2
            = Except.ok v := by rw [hpv]
        have ihq := ih hnext
        rw [ihq]
        by_cases hq : q = id
        · subst hq
          rw [if_pos rfl, if_pos rfl, lookupSeq_push, if_pos rfl,
            collectedOf_cons_in hw hok, mergeAt_cons]
          cases hacc : acc.lookupSeq q with
          | none => simp [mergeAt]
          | some s => simp [mergeAt]
        · rw [if_neg hq, if_neg hq, lookupSeq_push, if_neg hq]
    · have hw' : inWindow old_spot_date new_spot_date fixing = false := by
        revert hw; cases inWindow old_spot_date new_spot_date fixing <;> simp
      simp only [scanFixingsOf, hw', Bool.false_eq_true, if_false] at h
      rw [ih h, collectedOf_cons_out hw']

theorem scanFixingsOf_ok_resolves {context : PricingContext Inst} {dyn : SpotDynamics}
    {old_spot_date new_spot_date : Date} {id : Ident} {instrument : Inst}
    {fixings : List DateTime} {acc : FixingMap} {tr : List (Event Inst)} {m : FixingMap}
    (h : scanFixingsOf context dyn old_spot_date new_spot_date id instrument fixings acc
      = (tr, Except.ok m)) :
    ∀ f ∈ fixings, inWindow old_spot_date new_spot_date f = true →
      ∃ v, (policyValue context dyn new_spot_date id instrument f.date).2 = Except.ok v := by
  induction fixings generalizing acc tr with
  | nil => intro f hf; simp at hf
  | cons fixing rest ih =>
    intro f hf hwf
    by_cases hw : inWindow old_spot_date new_spot_date fixing = true
    · rcases hpv : policyValue context dyn new_spot_date id instrument fixing.date with ⟨tr1, r1⟩
      cases r1 with
      | error e =>
        simp only [scanFixingsOf, hw, if_true, hpv] at h
        simp at h
      | ok v =>
        rcases hnext : scanFixingsOf context dyn old_spot_date new_spot_date id instrument rest
            (FixingMap.push acc id (fixing, v)) with ⟨tr2, r2⟩
        simp only [scanFixingsOf, hw, if_true, hpv, hnext, Prod.mk.injEq] at h
        obtain ⟨-, h2⟩ := h
        subst h2
        rcases List.mem_cons.mp hf with hff | hfr
        · subst hff; exact ⟨v, by rw [hpv]⟩
        · exact ih hnext f hfr hwf
    · have hw' : inWindow old_spot_date new_spot_date fixing = false := by
        revert hw; cases inWindow old_spot_date new_spot_date fixing <;> simp
      simp only [scanFixingsOf, hw', Bool.false_eq_true, if_false] at h
      rcases List.mem_cons.mp hf with hff | hfr
      · subst hff; rw [hwf] at hw'; cases hw'
      · exact ih h f hfr hwf

theorem scanFixingsOf_events {context : PricingContext Inst} {dyn : SpotDynamics}
    {old_spot_date new_spot_date : Date} {id : Ident} {instrument : Inst}
    {fixings : List DateTime} {acc : FixingMap} {tr : List (Event Inst)}
    {r : Except Error FixingMap}
    (h : scanFixingsOf context dyn old_spot_date new_spot_date id instrument fixings acc
      = (tr, r)) :
    ∀ e ∈ tr, e.isResolve = true := by
  induction fixings generalizing acc tr r with
  | nil =>
    simp only [scanFixingsOf, Prod.mk.injEq] at h
    obtain ⟨h1, -⟩ := h
    subst h1
    intro e he; simp at he
  | cons fixing rest ih =>
    by_cases hw : inWindow old_spot_date new_spot_date fixing = true
    · rcases hpv : policyValue context dyn new_spot_date id instrument fixing.date with ⟨tr1, r1⟩
      have htr1 : ∀ e ∈ tr1, Event.isResolve e = true := by
        intro e he
        have := policyValue_events context dyn new_spot_date id instrument fixing.date e
        rw [hpv] at this
        exact this he
      cases r1 with
      | error e0 =>
        simp only [scanFixingsOf, hw, if_true, hpv, Prod.mk.injEq] at h
        obtain ⟨h1, -⟩ := h
        subst h1
        exact htr1
      | ok v =>
        rcases hnext : scanFixingsOf context dyn old_spot_date new_spot_date id instrument rest
            (FixingMap.push acc id (fixing, v)) with ⟨tr2, r2⟩
        simp only [scanFixingsOf, hw, if_true, hpv, hnext, Prod.mk.injEq] at h
        obtain ⟨h1, -⟩ := h
        subst h1
        intro e he
        rcases List.mem_append.mp he with h1 | h2
        · exact htr1 e h1
        · exact ih hnext e h2
    · have hw' : inWindow old_spot_date new_spot_date fixing = false := by
        revert hw; cases inWindow old_spot_date new_spot_date fixing <;> simp
      simp only [scanFixingsOf, hw', Bool.false_eq_true, if_false] at h
      exact ih h

theorem scanFixingsOf_ok_count {context : PricingContext Inst}
    {old_spot_date new_spot_date : Date} {id : Ident} {instrument : Inst}
    {fixings : List DateTime} {acc : FixingMap} {tr : List (Event Inst)} {m : FixingMap}
    (h : scanFixingsOf context SpotDynamics.StickyForward old_spot_date new_spot_date id
      instrument fixings acc = (tr, Except.ok m)) :
    tr.countP Event.isResolveFwd
      = (fixings.filter (inWindow old_spot_date new_spot_date)).length := by
  induction fixings generalizing acc tr with
  | nil =>
    simp only [scanFixingsOf, Prod.mk.injEq] at h
    obtain ⟨h1, -⟩ := h
    subst h1
    simp
  | cons fixing rest ih =>
    by_cases hw : inWindow old_spot_date new_spot_date fixing = true
    · rcases hpv : policyValue context SpotDynamics.StickyForward new_spot_date id instrument
          fixing.date with ⟨tr1, r1⟩
      have htr1 : tr1.countP Event.isResolveFwd = 1 := by
        have := policyValue_fwd_count context new_spot_date id instrument fixing.date
        rw [hpv] at this
        exact this
      cases r1 with
      | error e =>
        simp only [scanFixingsOf, hw, if_true, hpv] at h
        simp at h
      | ok v =>
        rcases hnext : scanFixingsOf context SpotDynamics.StickyForward old_spot_date
            new_spot_date id instrument rest (FixingMap.push acc id (fixing, v)) with ⟨tr2, r2⟩
        simp only [scanFixingsOf, hw, if_true, hpv, hnext, Prod.mk.injEq] at h
        obtain ⟨h1, h2⟩ := h
        subst h1; subst h2
        rw [List.countP_append, htr1, ih hnext, List.filter_cons_of_pos hw]
        simp [Nat.add_comm]
    · have hw' : inWindow old_spot_date new_spot_date fixing = false := by
        revert hw; cases inWindow old_spot_date new_spot_date fixing <;> simp
      simp only [scanFixingsOf, hw', Bool.false_eq_true, if_false] at h
      rw [ih h, List.filter_cons_of_neg (by simp [hw'])]

theorem scanFixingsOf_no_window (context : PricingContext Inst) (dyn : SpotDynamics)
    (old_spot_date new_spot_date : Date) (id : Ident) (instrument : Inst)
    (fixings : List DateTime) (acc : FixingMap)
    (hW : ∀ f ∈ fixings, inWindow old_spot_date new_spot_date f = false) :
    scanFixingsOf context dyn old_spot_date new_spot_date id instrument fixings acc
      = ([], Except.ok acc) := by
  induction fixings generalizing acc with
  | nil => simp [scanFixingsOf]
  | cons fixing rest ih =>
    have hf := hW fixing (List.mem_cons_self _ _)
    simp only [scanFixingsOf, hf, Bool.false_eq_true, if_false]
    exact ih acc (fun g hg => hW g (List.mem_cons_of_mem _ hg))

/-! ### Characterisation of the outer scan loop -/

theorem scanAll_ok_lookup {context : PricingContext Inst} {dyn : SpotDynamics}
    {old_spot_date new_spot_date : Date} {fixings : Ident → List DateTime}
    {pairs : List (Ident × Inst)} {acc : FixingMap} {tr : List (Event Inst)} {m : FixingMap}
    (h : scanAll context dyn old_spot_date new_spot_date fixings pairs acc
      = (tr, Except.ok m)) (q : Ident) :
    m.lookupSeq q = mergeAt (acc.lookupSeq q)
      (collectedAll context dyn old_spot_date new_spot_date fixings pairs q) := by
  induction pairs generalizing acc tr with
  | nil =>
    simp only [scanAll, Prod.mk.injEq, Except.ok.injEq] at h
    obtain ⟨-, h2⟩ := h
    subst h2
    rw [collectedAll, mergeAt_nil]
  | cons pair rest ih =>
    obtain ⟨id, instrument⟩ := pair
    rcases hs : scanFixingsOf context dyn old_spot_date new_spot_date id instrument
        (fixings id) acc with ⟨tr1, r1⟩
    cases r1 with
    | error e =>
      simp only [scanAll, hs] at h
      simp at h
    | ok acc2 =>
      rcases hnext : scanAll context dyn old_spot_date new_spot_date fixings rest acc2
        with ⟨tr2, r2⟩
      simp only [scanAll, hs, hnext, Prod.mk.injEq] at h
      obtain ⟨-, h2⟩ := h
      subst h2
      rw [ih hnext, scanFixingsOf_ok_lookup hs q]
      by_cases hq : q = id
      · subst hq
        simp only [collectedAll, eq_self_iff_true, if_true, mergeAt_assoc]
      · have hq' : ¬ id = q := fun hh => hq hh.symm
        simp only [collectedAll, if_neg hq', if_neg hq, List.nil_append]

theorem scanAll_ok_resolves {context : PricingContext Inst} {dyn : SpotDynamics}
    {old_spot_date new_spot_date : Date} {fixings : Ident → List DateTime}
    {pairs : List (Ident × Inst)} {acc : FixingMap} {tr : List (Event Inst)} {m : FixingMap}
    (h : scanAll context dyn old_spot_date new_spot_date fixings pairs acc
      = (tr, Except.ok m)) :
    ∀ id instrument, (id, instrument) ∈ pairs → ∀ f ∈ fixings id,
      inWindow old_spot_date new_spot_date f = true →
      ∃ v, (policyValue context dyn new_spot_date id instrument f.date).2 = Except.ok v := by
  induction pairs generalizing acc tr with
  | nil => intro id instrument hmem; simp at hmem
  | cons pair rest ih =>
    obtain ⟨id0, inst0⟩ := pair
    rcases hs : scanFixingsOf context dyn old_spot_date new_spot_date id0 inst0
        (fixings id0) acc with ⟨tr1, r1⟩
    cases r1 with
    | error e =>
      simp only [scanAll, hs] at h
      simp at h
    | ok acc2 =>
      rcases hnext : scanAll context dyn old_spot_date new_spot_date fixings rest acc2
        with ⟨tr2, r2⟩
      simp only [scanAll, hs, hnext, Prod.mk.injEq] at h
      obtain ⟨-, h2⟩ := h
      subst h2
      intro id instrument hmem f hf hw
      rcases List.mem_cons.mp hmem with hhead | hrest
      · rw [Prod.mk.injEq] at hhead
        obtain ⟨e1, e2⟩ := hhead
        subst e1; subst e2
        exact scanFixingsOf_ok_resolves hs f hf hw
      · exact ih hnext id instrument hrest f hf hw

theorem scanAll_events {context : PricingContext Inst} {dyn : SpotDynamics}
    {old_spot_date new_spot_date : Date} {fixings : Ident → List DateTime}
    {pairs : List (Ident × Inst)} {acc : FixingMap} {tr : List (Event Inst)}
    {r : Except Error FixingMap}
    (h : scanAll context dyn old_spot_date new_spot_date fixings pairs acc = (tr, r)) :
    ∀ e ∈ tr, e.isResolve = true := by
  induction pairs generalizing acc tr r with
  | nil =>
    simp only [scanAll, Prod.mk.injEq] at h
    obtain ⟨h1, -⟩ := h
    subst h1
    intro e he; simp at he
  | cons pair rest ih =>
    obtain ⟨id0, inst0⟩ := pair
    rcases hs : scanFixingsOf context dyn old_spot_date new_spot_date id0 inst0
        (fixings id0) acc with ⟨tr1, r1⟩
    have htr1 := scanFixingsOf_events hs
    cases r1 with
    | error e0 =>
      simp only [scanAll, hs, Prod.mk.injEq] at h
      obtain ⟨h1, -⟩ := h
      subst h1
      exact htr1
    | ok acc2 =>
      rcases hnext : scanAll context dyn old_spot_date new_spot_date fixings rest acc2
        with ⟨tr2, r2⟩
      simp only [scanAll, hs, hnext, Prod.mk.injEq] at h
      obtain ⟨h1, -⟩ := h
      subst h1
      intro e he
      rcases List.mem_append.mp he with h1 | h2
      · exact htr1 e h1
      · exact ih hnext e h2

theorem scanAll_ok_count {context : PricingContext Inst}
    {old_spot_date new_spot_date : Date} {fixings : Ident → List DateTime}
    {pairs : List (Ident × Inst)} {acc : FixingMap} {tr : List (Event Inst)} {m : FixingMap}
    (h : scanAll context SpotDynamics.StickyForward old_spot_date new_spot_date fixings
      pairs acc = (tr, Except.ok m)) :
    tr.countP Event.isResolveFwd
      = (pairs.map
          (fun p => ((fixings p.1).filter (inWindow old_spot_date new_spot_date)).length)).sum := by
  induction pairs generalizing acc tr with
  | nil =>
    simp only [scanAll, Prod.mk.injEq] at h
    obtain ⟨h1, -⟩ := h
    subst h1
    simp
  | cons pair rest ih =>
    obtain ⟨id0, inst0⟩ := pair
    rcases hs : scanFixingsOf context SpotDynamics.StickyForward old_spot_date new_spot_date
        id0 inst0 (fixings id0) acc with ⟨tr1, r1⟩
    cases r1 with
    | error e =>
      simp only [scanAll, hs] at h
      simp at h
    | ok acc2 =>
      rcases hnext : scanAll context SpotDynamics.StickyForward old_spot_date new_spot_date
          fixings rest acc2 with ⟨tr2, r2⟩
      simp only [scanAll, hs, hnext, Prod.mk.injEq] at h
      obtain ⟨h1, h2⟩ := h
      subst h1; subst h2
      rw [List.countP_append, scanFixingsOf_ok_count hs, ih hnext]
      simp

theorem scanAll_no_window (context : PricingContext Inst) (dyn : SpotDynamics)
    (old_spot_date new_spot_date : Date) (fixings : Ident → List DateTime)
    (pairs : List (Ident × Inst)) (acc : FixingMap)
    (hW : ∀ p ∈ pairs, ∀ f ∈ fixings p.1,
      inWindow old_spot_date new_spot_date f = false) :
    scanAll context dyn old_spot_date new_spot_date fixings pairs acc
      = ([], Except.ok acc) := by
  induction pairs generalizing acc with
  | nil => simp [scanAll]
  | cons pair rest ih =>
    obtain ⟨id0, inst0⟩ := pair
    have hs := scanFixingsOf_no_window context dyn old_spot_date new_spot_date id0 inst0
      (fixings id0) acc (hW (id0, inst0) (List.mem_cons_self _ _))
    simp only [scanAll, hs]
    exact ih acc (fun p hp => hW p (List.mem_cons_of_mem _ hp))

theorem scanAll_ok_seqOf {context : PricingContext Inst} {dyn : SpotDynamics}
    {old_spot_date new_spot_date : Date} {fixings : Ident → List DateTime}
    {pairs : List (Ident × Inst)} {tr : List (Event Inst)} {m : FixingMap}
    (h : scanAll context dyn old_spot_date new_spot_date fixings pairs []
      = (tr, Except.ok m)) (q : Ident) :
    m.seqOf q = collectedAll context dyn old_spot_date new_spot_date fixings pairs q := by
  have hl := scanAll_ok_lookup h q
  have hnone : FixingMap.lookupSeq [] q = none := rfl
  rw [hnone] at hl
  rw [FixingMap.seqOf, hl, mergeAt_getD]
  simp

theorem scanAll_ok_nonempty_iff {context : PricingContext Inst} {dyn : SpotDynamics}
    {old_spot_date new_spot_date : Date} {fixings : Ident → List DateTime}
    {pairs : List (Ident × Inst)} {tr : List (Event Inst)} {m : FixingMap}
    (h : scanAll context dyn old_spot_date new_spot_date fixings pairs []
      = (tr, Except.ok m)) :
    m ≠ [] ↔ ∃ id instrument dt, (id, instrument) ∈ pairs ∧ dt ∈ fixings id ∧
      inWindow old_spot_date new_spot_date dt = true := by
  constructor
  · intro hne
    cases hm : m with
    | nil => exact absurd hm hne
    | cons entry rest =>
      obtain ⟨q, seq⟩ := entry
      have hhead : m.lookupSeq q = some seq := by
        rw [hm]; simp [FixingMap.lookupSeq]
      have hl := scanAll_ok_lookup h q
      have hnone : FixingMap.lookupSeq [] q = none := rfl
      rw [hnone, hhead] at hl
      obtain ⟨hcoll, hcne⟩ := mergeAt_none_eq_some hl.symm
      obtain ⟨p, hp⟩ := List.exists_mem_of_ne_nil _ hcne
      obtain ⟨instrument, hmem, hcol⟩ := mem_collectedAll.mp hp
      obtain ⟨dt, v⟩ := p
      obtain ⟨hdt, hw, -⟩ := mem_collectedOf.mp hcol
      exact ⟨q, instrument, dt, hmem, hdt, hw⟩
  · rintro ⟨id, instrument, dt, hmem, hdt, hw⟩
    obtain ⟨v, hv⟩ := scanAll_ok_resolves h id instrument hmem dt hdt hw
    have hcol : (dt, v) ∈ collectedOf context dyn old_spot_date new_spot_date id instrument
        (fixings id) := mem_collectedOf.mpr ⟨hdt, hw, hv⟩
    have hall : (dt, v) ∈ collectedAll context dyn old_spot_date new_spot_date fixings pairs id :=
      mem_collectedAll.mpr ⟨instrument, hmem, hcol⟩
    intro hmnil
    rw [← scanAll_ok_seqOf h id] at hall
    rw [hmnil] at hall
    simp [FixingMap.seqOf, FixingMap.lookupSeq] at hall

/-! ### Characterisation of `update_instruments` and `apply` -/

theorem update_instruments_error {self : BumpTime} {ext : Externals Inst}
    {instruments : List (Value × Inst)} {context : PricingContext Inst}
    {dependencies : DependencyCollector Inst} {tr : List (Event Inst)}
    {final : List (Value × Inst)} {e : Error}
    (h : self.update_instruments ext instruments context dependencies
      = (tr, final, Except.error e)) :
    final = instruments := by
  rcases hs : scanAll context self.spot_date_bump.spot_dynamics context.spot_date
      self.spot_date_bump.spot_date dependencies.fixings dependencies.instruments []
    with ⟨trs, rs⟩
  cases rs with
  | error e0 =>
    simp only [BumpTime.update_instruments, hs, Prod.mk.injEq] at h
    exact h.2.1.symm
  | ok fm =>
    by_cases hfm : fm.isEmpty
    · simp only [BumpTime.update_instruments, hs, hfm, Bool.not_true, Bool.false_eq_true,
        if_false, Prod.mk.injEq] at h
      exact h.2.1.symm
    · have hfm' : fm.isEmpty = false := by
        revert hfm; cases fm.isEmpty <;> simp
      cases hfmap : ext.from_map self.spot_date_bump.spot_date fm with
      | error e1 =>
        simp only [BumpTime.update_instruments, hs, hfm', Bool.not_false, if_true, hfmap,
          Prod.mk.injEq] at h
        exact h.2.1.symm
      | ok table =>
        cases hfix : ext.fix_all instruments table with
        | error e2 =>
          simp only [BumpTime.update_instruments, hs, hfm', Bool.not_false, if_true, hfmap,
            hfix, Prod.mk.injEq] at h
          exact h.2.1.symm
        | ok replacement =>
          simp only [BumpTime.update_instruments, hs, hfm', Bool.not_false, if_true, hfmap,
            hfix, Prod.mk.injEq] at h
          exact absurd h.2.2 (by simp)

theorem update_instruments_ok_true {self : BumpTime} {ext : Externals Inst}
    {instruments : List (Value × Inst)} {context : PricingContext Inst}
    {dependencies : DependencyCollector Inst} {tr : List (Event Inst)}
    {final : List (Value × Inst)}
    (h : self.update_instruments ext instruments context dependencies
      = (tr, final, Except.ok true)) :
    ∃ trs fm, scanAll context self.spot_date_bump.spot_dynamics context.spot_date
        self.spot_date_bump.spot_date dependencies.fixings dependencies.instruments []
        = (trs, Except.ok fm) ∧ fm ≠ [] ∧
      (∃ table, ext.from_map self.spot_date_bump.spot_date fm = Except.ok table ∧
        ext.fix_all instruments table = Except.ok final) ∧
      tr = trs ++ [Event.buildFixingTable self.spot_date_bump.spot_date fm, Event.restate] := by
  rcases hs : scanAll context self.spot_date_bump.spot_dynamics context.spot_date
      self.spot_date_bump.spot_date dependencies.fixings dependencies.instruments []
    with ⟨trs, rs⟩
  cases rs with
  | error e0 =>
    simp only [BumpTime.update_instruments, hs, Prod.mk.injEq] at h
    exact absurd h.2.2 (by simp)
  | ok fm =>
    by_cases hfm : fm.isEmpty
    · simp only [BumpTime.update_instruments, hs, hfm, Bool.not_true, Bool.false_eq_true,
        if_false, Prod.mk.injEq] at h
      exact absurd h.2.2 (by simp)
    · have hfm' : fm.isEmpty = false := by
        revert hfm; cases fm.isEmpty <;> simp
      have hfmne : fm ≠ [] := by
        intro hnil; rw [hnil] at hfm'; simp at hfm'
      cases hfmap : ext.from_map self.spot_date_bump.spot_date fm with
      | error e1 =>
        simp only [BumpTime.update_instruments, hs, hfm', Bool.not_false, if_true, hfmap,
          Prod.mk.injEq] at h
        exact absurd h.2.2 (by simp)
      | ok table =>
        cases hfix : ext.fix_all instruments table with
        | error e2 =>
          simp only [BumpTime.update_instruments, hs, hfm', Bool.not_false, if_true, hfmap,
            hfix, Prod.mk.injEq] at h
          exact absurd h.2.2 (by simp)
        | ok replacement =>
          simp only [BumpTime.update_instruments, hs, hfm', Bool.not_false, if_true, hfmap,
            hfix, Prod.mk.injEq] at h
          obtain ⟨h1, h2, -⟩ := h
          subst h1
          subst h2
          exact ⟨trs, fm, rfl, hfmne, ⟨table, hfmap, hfix⟩, rfl⟩

theorem update_instruments_ok_false {self : BumpTime} {ext : Externals Inst}
    {instruments : List (Value × Inst)} {context : PricingContext Inst}
    {dependencies : DependencyCollector Inst} {tr : List (Event Inst)}
    {final : List (Value × Inst)}
    (h : self.update_instruments ext instruments context dependencies
      = (tr, final, Except.ok false)) :
    scanAll context self.spot_date_bump.spot_dynamics context.spot_date
        self.spot_date_bump.spot_date dependencies.fixings dependencies.instruments []
      = (tr, Except.ok []) ∧ final = instruments := by
  rcases hs : scanAll context self.spot_date_bump.spot_dynamics context.spot_date
      self.spot_date_bump.spot_date dependencies.fixings dependencies.instruments []
    with ⟨trs, rs⟩
  cases rs with
  | error e0 =>
    simp only [BumpTime.update_instruments, hs, Prod.mk.injEq] at h
    exact absurd h.2.2 (by simp)
  | ok fm =>
    by_cases hfm : fm.isEmpty
    · have hfmnil : fm = [] := by
        cases fm with
        | nil => rfl
        | cons a rest => simp [List.isEmpty] at hfm
      simp only [BumpTime.update_instruments, hs, hfm, Bool.not_true, Bool.false_eq_true,
        if_false, Prod.mk.injEq] at h
      obtain ⟨h1, h2, -⟩ := h
      subst h1
      exact ⟨by rw [hfmnil], h2.symm⟩
    · have hfm' : fm.isEmpty = false := by
        revert hfm; cases fm.isEmpty <;> simp
      cases hfmap : ext.from_map self.spot_date_bump.spot_date fm with
      | error e1 =>
        simp only [BumpTime.update_instruments, hs, hfm', Bool.not_false, if_true, hfmap,
          Prod.mk.injEq] at h
        exact absurd h.2.2 (by simp)
      | ok table =>
        cases hfix : ext.fix_all instruments table with
        | error e2 =>
          simp only [BumpTime.update_instruments, hs, hfm', Bool.not_false, if_true, hfmap,
            hfix, Prod.mk.injEq] at h
          exact absurd h.2.2 (by simp)
        | ok replacement =>
          simp only [BumpTime.update_instruments, hs, hfm', Bool.not_false, if_true, hfmap,
            hfix, Prod.mk.injEq] at h
          exact absurd h.2.2 (by simp)

theorem isResolve_not_build {e : Event Inst} (h : e.isResolve = true) :
    e.isBuild = false := by
  cases e <;> simp_all [Event.isResolve, Event.isBuild]

theorem isResolve_not_applyBump {e : Event Inst} (h : e.isResolve = true) :
    e.isApplyBump = false := by
  cases e <;> simp_all [Event.isResolve, Event.isApplyBump]

theorem countP_applyBump_zero {tr : List (Event Inst)}
    (h : ∀ e ∈ tr, e.isResolve = true) : tr.countP Event.isApplyBump = 0 := by
  rw [List.countP_eq_zero]
  intro e he
  simp [isResolve_not_applyBump (h e he)]

theorem no_build_of_resolve {tr : List (Event Inst)}
    (h : ∀ e ∈ tr, e.isResolve = true) : ∀ d mm, Event.buildFixingTable d mm ∉ tr := by
  intro d mm hmem
  have := h _ hmem
  simp [Event.isResolve] at this

theorem inWindow_false_of_backward {old_spot_date new_spot_date : Date}
    (hback : new_spot_date ≤ old_spot_date) (dt : DateTime) :
    inWindow old_spot_date new_spot_date dt = false := by
  by_cases hw : inWindow old_spot_date new_spot_date dt = true
  · obtain ⟨h1, h2⟩ := (inWindow_iff _ _ _).mp hw
    exact absurd (h2.trans_le hback) (not_lt.mpr h1)
  · revert hw; cases inWindow old_spot_date new_spot_date dt <;> simp

theorem collectedOf_map_fst {context : PricingContext Inst} {dyn : SpotDynamics}
    {old_spot_date new_spot_date : Date} {id : Ident} {instrument : Inst}
    {fixings : List DateTime}
    (hres : ∀ f ∈ fixings, inWindow old_spot_date new_spot_date f = true →
      ∃ v, (policyValue context dyn new_spot_date id instrument f.date).2 = Except.ok v) :
    (collectedOf context dyn old_spot_date new_spot_date id instrument fixings).map Prod.fst
      = fixings.filter (inWindow old_spot_date new_spot_date) := by
  induction fixings with
  | nil => simp [collectedOf_nil]
  | cons fixing rest ih =>
    have ih' := ih (fun f hf => hres f (List.mem_cons_of_mem _ hf))
    by_cases hw : inWindow old_spot_date new_spot_date fixing = true
    · obtain ⟨v, hv⟩ := hres fixing (List.mem_cons_self _ _) hw
      rw [collectedOf_cons_in hw hv, List.filter_cons_of_pos hw, List.map_cons, ih']
    · have hw' : inWindow old_spot_date new_spot_date fixing = false := by
        revert hw; cases inWindow old_spot_date new_spot_date fixing <;> simp
      rw [collectedOf_cons_out hw', List.filter_cons_of_neg (by simp [hw']), ih']

theorem collectedAll_nil_of_filter_nil {context : PricingContext Inst} {dyn : SpotDynamics}
    {old_spot_date new_spot_date : Date} {fixings : Ident → List DateTime}
    {pairs : List (Ident × Inst)} {q : Ident}
    (hfilter : pairs.filter (fun p => decide (p.1 = q)) = []) :
    collectedAll context dyn old_spot_date new_spot_date fixings pairs q = [] := by
  induction pairs with
  | nil => rfl
  | cons pair rest ih =>
    obtain ⟨id, instrument⟩ := pair
    by_cases hid : id = q
    · rw [List.filter_cons_of_pos (by simp [hid])] at hfilter
      simp at hfilter
    · rw [List.filter_cons_of_neg (by simp [hid])] at hfilter
      simp only [collectedAll, if_neg hid, List.nil_append]
      exact ih hfilter

theorem collectedAll_eq_of_filter {context : PricingContext Inst} {dyn : SpotDynamics}
    {old_spot_date new_spot_date : Date} {fixings : Ident → List DateTime}
    {pairs : List (Ident × Inst)} {q : Ident} {instrument : Inst}
    (hfilter : pairs.filter (fun p => decide (p.1 = q)) = [(q, instrument)]) :
    collectedAll context dyn old_spot_date new_spot_date fixings pairs q
      = collectedOf context dyn old_spot_date new_spot_date q instrument (fixings q) := by
  induction pairs with
  | nil => simp at hfilter
  | cons pair rest ih =>
    obtain ⟨id, inst0⟩ := pair
    by_cases hid : id = q
    · subst hid
      rw [List.filter_cons_of_pos (by simp)] at hfilter
      rw [List.cons_eq_cons] at hfilter
      obtain ⟨hhead, htail⟩ := hfilter
      rw [Prod.mk.injEq] at hhead
      obtain ⟨-, h2⟩ := hhead
      subst h2
      simp only [collectedAll, eq_self_iff_true, if_true]
      rw [collectedAll_nil_of_filter_nil htail, List.append_nil]
    · rw [List.filter_cons_of_neg (by simp [hid])] at hfilter
      simp only [collectedAll, if_neg hid, List.nil_append]
      exact ih hfilter

theorem update_instruments_no_window {self : BumpTime} {ext : Externals Inst}
    {instruments : List (Value × Inst)} {context : PricingContext Inst}
    {dependencies : DependencyCollector Inst}
    (hW : ∀ p ∈ dependencies.instruments, ∀ f ∈ dependencies.fixings p.1,
      inWindow context.spot_date self.spot_date_bump.spot_date f = false) :
    self.update_instruments ext instruments context dependencies
      = ([], instruments, Except.ok false) := by
  have hs := scanAll_no_window context self.spot_date_bump.spot_dynamics context.spot_date
    self.spot_date_bump.spot_date dependencies.fixings dependencies.instruments [] hW
  simp [BumpTime.update_instruments, hs]

/-! ### Claim theorems -/

/-- C1: window correctness — in a successful scan of the dependency model,
every collected (date, value) pair lies in the half-open window from the
old spot date (inclusive) to the new spot date (exclusive), and a
dependency fixing date of an identifier appears in the collected fixing
mapping iff it lies in that window; dates at or after the new spot date,
or before the old spot date, never appear. -/
theorem claim_C1_window_correctness {Inst : Type} (self : BumpTime)
    (context : PricingContext Inst) (dependencies : DependencyCollector Inst)
    (tr : List (Event Inst)) (m : FixingMap)
    (h : scanAll context self.spot_date_bump.spot_dynamics context.spot_date
      self.spot_date_bump.spot_date dependencies.fixings dependencies.instruments []
      = (tr, Except.ok m)) :
    (∀ id dt v, (dt, v) ∈ m.seqOf id →
      context.spot_date ≤ dt.date ∧ dt.date < self.spot_date_bump.spot_date) ∧
    (∀ id instrument dt, (id, instrument) ∈ dependencies.instruments →
      dt ∈ dependencies.fixings id →
      ((∃ v, (dt, v) ∈ m.seqOf id) ↔
        (context.spot_date ≤ dt.date ∧ dt.date < self.spot_date_bump.spot_date))) := by
  constructor
  · intro id dt v hmem
    rw [scanAll_ok_seqOf h id] at hmem
    obtain ⟨instrument, hpair, hcol⟩ := mem_collectedAll.mp hmem
    obtain ⟨hdt, hw, -⟩ := mem_collectedOf.mp hcol
    exact (inWindow_iff _ _ _).mp hw
  · intro id instrument dt hpair hdt
    constructor
    · rintro ⟨v, hmem⟩
      rw [scanAll_ok_seqOf h id] at hmem
      obtain ⟨inst2, -, hcol⟩ := mem_collectedAll.mp hmem
      obtain ⟨-, hw, -⟩ := mem_collectedOf.mp hcol
      exact (inWindow_iff _ _ _).mp hw
    · intro hbounds
      have hw := (inWindow_iff _ _ _).mpr hbounds
      obtain ⟨v, hv⟩ := scanAll_ok_resolves h id instrument hpair dt hdt hw
      refine ⟨v, ?_⟩
      rw [scanAll_ok_seqOf h id]
      exact mem_collectedAll.mpr ⟨instrument, hpair, mem_collectedOf.mpr ⟨hdt, hw, hv⟩⟩

/-- Concrete witness for C1: on the example fixtures (old spot day 10, new
spot day 15, one EUR fixing at day 12) the hypotheses of the theorem hold
and its window bounds follow for the collected day-12 fixing. -/
theorem claim_C1_window_correctness_witness : (10:Int) ≤ 12 ∧ (12:Int) < 15 :=
  (claim_C1_window_correctness exBump exCtx exDeps [Event.resolveSpot "EUR"]
      [("EUR", [({ date := 12, time := 0 }, 110)])] rfl).1 "EUR"
    { date := 12, time := 0 } 110 (by simp [FixingMap.seqOf, FixingMap.lookupSeq])

/-- C3: failure atomicity — whenever `apply` returns an error (from
dependency access, spot or curve resolution, fixing-table construction,
restatement or bump application), the instruments vector is exactly as it
was before the call: no partial replacement is observable. -/
theorem claim_C3_failure_atomicity {Inst : Type} (self : BumpTime) (ext : Externals Inst)
    (instruments : List (Value × Inst)) (bumpable : Bumpable Inst)
    (tr : List (Event Inst)) (final : List (Value × Inst)) (e : Error)
    (h : self.apply ext instruments bumpable = (tr, final, Except.error e)) :
    final = instruments := by
  rcases hdep : bumpable.dependencies with e0 | deps
  · simp only [BumpTime.apply, hdep, Prod.mk.injEq] at h
    exact h.2.1.symm
  · rcases hu : self.update_instruments ext instruments bumpable.context deps
      with ⟨tru, insts, ru⟩
    cases ru with
    | error e1 =>
      simp only [BumpTime.apply, hdep, hu, Prod.mk.injEq] at h
      obtain ⟨-, h2, -⟩ := h
      subst h2
      exact update_instruments_error hu
    | ok modified =>
      cases modified with
      | true =>
        simp only [BumpTime.apply, hdep, hu, Bool.not_true, Bool.false_eq_true, if_false,
          Prod.mk.injEq] at h
        exact absurd h.2.2 (by simp)
      | false =>
        rcases hb : bumpable.bump (Bump.new_spot_date self.spot_date_bump) with e2 | u
        · simp only [BumpTime.apply, hdep, hu, Bool.not_false, if_true, hb,
            Prod.mk.injEq] at h
          obtain ⟨-, h2, -⟩ := h
          subst h2
          exact (update_instruments_ok_false hu).2
        · simp only [BumpTime.apply, hdep, hu, Bool.not_false, if_true, hb,
            Prod.mk.injEq] at h
          exact absurd h.2.2 (by simp)

/-- Concrete witness for C3: over the failing pricing context the example
call errors out and the theorem applies, leaving the portfolio equal to
its initial value. -/
theorem claim_C3_failure_atomicity_witness : exInstruments = exInstruments :=
  claim_C3_failure_atomicity exBump exExternals exInstruments exErrBumpable
    [Event.resolveSpot "EUR"] exInstruments "spot unavailable" rfl

/-- C7: backward or zero shift — when the new spot date is not strictly
after the old one, the detected window is empty and no work is done: the
scan collects the empty mapping making no external calls, and
`update_instruments` builds no fixing table, leaves the instruments vector
unchanged, and reports no change. -/
theorem claim_C7_backward_shift {Inst : Type} (self : BumpTime) (ext : Externals Inst)
    (instruments : List (Value × Inst)) (context : PricingContext Inst)
    (dependencies : DependencyCollector Inst)
    (hback : self.spot_date_bump.spot_date ≤ context.spot_date) :
    scanAll context self.spot_date_bump.spot_dynamics context.spot_date
        self.spot_date_bump.spot_date dependencies.fixings dependencies.instruments []
      = ([], Except.ok []) ∧
    self.update_instruments ext instruments context dependencies
      = ([], instruments, Except.ok false) := by
  have hW : ∀ p ∈ dependencies.instruments, ∀ f ∈ dependencies.fixings p.1,
      inWindow context.spot_date self.spot_date_bump.spot_date f = false :=
    fun p _ f _ => inWindow_false_of_backward hback f
  exact ⟨scanAll_no_window context self.spot_date_bump.spot_dynamics context.spot_date
    self.spot_date_bump.spot_date dependencies.fixings dependencies.instruments [] hW,
    update_instruments_no_window hW⟩

/-- Concrete witness for C7: shifting the spot date to the same day 10 it
already has leaves the example portfolio untouched with no fixing table
built. -/
theorem claim_C7_backward_shift_witness :
    (BumpTime.new 10 10 SpotDynamics.StickySpot).update_instruments exExternals
      exInstruments exCtx exDeps = ([], exInstruments, Except.ok false) :=
  (claim_C7_backward_shift (BumpTime.new 10 10 SpotDynamics.StickySpot) exExternals
    exInstruments exCtx exDeps (by decide)).2

/-- C10: the ex-from date passed to `BumpTime::new` is stored but never
read — two bumps differing only in their ex-from dates produce identical
results and identical effects on the instruments vector and the model, in
both `apply` and `update_instruments`. -/
theorem claim_C10_ex_from_inert {Inst : Type} (spot_date ex1 ex2 : Date)
    (dyn : SpotDynamics) (ext : Externals Inst) (instruments : List (Value × Inst))
    (bumpable : Bumpable Inst) (context : PricingContext Inst)
    (dependencies : DependencyCollector Inst) :
    (BumpTime.new spot_date ex1 dyn).apply ext instruments bumpable
      = (BumpTime.new spot_date ex2 dyn).apply ext instruments bumpable ∧
    (BumpTime.new spot_date ex1 dyn).update_instruments ext instruments context dependencies
      = (BumpTime.new spot_date ex2 dyn).update_instruments ext instruments context
          dependencies :=
  ⟨rfl, rfl⟩

/-- C2: rebuild signal correctness — a successful `apply` returns true iff
some dependency fixing date falls in the window from the old spot date
(inclusive) to the new spot date (exclusive); when it returns true the
portfolio has been wholly replaced by the restatement function's output
and the generic spot-date bump is not applied; when it returns false the
generic spot-date bump is applied (exactly once). -/
theorem claim_C2_rebuild_signal {Inst : Type} (self : BumpTime) (ext : Externals Inst)
    (instruments : List (Value × Inst)) (bumpable : Bumpable Inst)
    (deps : DependencyCollector Inst) (tr : List (Event Inst))
    (final : List (Value × Inst)) (b : Bool)
    (hdep : bumpable.dependencies = Except.ok deps)
    (h : self.apply ext instruments bumpable = (tr, final, Except.ok b)) :
    (b = true ↔ ∃ id instrument dt, (id, instrument) ∈ deps.instruments ∧
      dt ∈ deps.fixings id ∧ bumpable.context.spot_date ≤ dt.date ∧
      dt.date < self.spot_date_bump.spot_date) ∧
    (b = true →
      (∃ fm table, ext.from_map self.spot_date_bump.spot_date fm = Except.ok table ∧
        ext.fix_all instruments table = Except.ok final) ∧
      tr.countP Event.isApplyBump = 0) ∧
    (b = false → tr.countP Event.isApplyBump = 1) := by
  rcases hu : self.update_instruments ext instruments bumpable.context deps
    with ⟨tru, insts, ru⟩
  cases ru with
  | error e1 =>
    simp only [BumpTime.apply, hdep, hu, Prod.mk.injEq] at h
    exact absurd h.2.2 (by simp)
  | ok modified =>
    cases modified with
    | true =>
      simp only [BumpTime.apply, hdep, hu, Bool.not_true, Bool.false_eq_true, if_false,
        Prod.mk.injEq] at h
      obtain ⟨h1, h2, h3⟩ := h
      rw [Except.ok.injEq] at h3
      subst h1; subst h2; subst h3
      obtain ⟨trs, fm, hs, hfmne, ⟨table, hfmap, hfix⟩, htr⟩ := update_instruments_ok_true hu
      subst htr
      refine ⟨?_, ?_, ?_⟩
      · constructor
        · intro _
          obtain ⟨id, instrument, dt, hmem, hdt, hw⟩ :=
            (scanAll_ok_nonempty_iff hs).mp hfmne
          exact ⟨id, instrument, dt, hmem, hdt, (inWindow_iff _ _ _).mp hw⟩
        · intro _; rfl
      · intro _
        refine ⟨⟨fm, table, hfmap, hfix⟩, ?_⟩
        have hc0 : trs.countP Event.isApplyBump = 0 :=
          countP_applyBump_zero (scanAll_events hs)
        rw [List.countP_append, hc0]
        simp [List.countP_cons, Event.isApplyBump]
      · intro hfalse
        simp at hfalse
    | false =>
      rcases hb2 : bumpable.bump (Bump.new_spot_date self.spot_date_bump) with e2 | u
      · simp only [BumpTime.apply, hdep, hu, Bool.not_false, if_true, hb2,
          Prod.mk.injEq] at h
        exact absurd h.2.2 (by simp)
      · simp only [BumpTime.apply, hdep, hu, Bool.not_false, if_true, hb2,
          Prod.mk.injEq] at h
        obtain ⟨h1, h2, h3⟩ := h
        rw [Except.ok.injEq] at h3
        subst h1; subst h2; subst h3
        obtain ⟨hs, hinsts⟩ := update_instruments_ok_false hu
        refine ⟨?_, ?_, ?_⟩
        · constructor
          · intro htrue
            simp at htrue
          · rintro ⟨id, instrument, dt, hmem, hdt, hbounds⟩
            have hw := (inWindow_iff bumpable.context.spot_date
              self.spot_date_bump.spot_date dt).mpr hbounds
            have hne : ([] : FixingMap) ≠ [] :=
              (scanAll_ok_nonempty_iff hs).mpr ⟨id, instrument, dt, hmem, hdt, hw⟩
            exact absurd rfl hne
        · intro htrue
          simp at htrue
        · intro _
          have hc0 : tru.countP Event.isApplyBump = 0 :=
            countP_applyBump_zero (scanAll_events hs)
          rw [List.countP_append, hc0]
          simp [List.countP_cons, Event.isApplyBump]

/-- Concrete witness for C2: on the example fixtures the call rebuilds
(returns true) and applies no generic bump, so the apply-bump count of its
trace is zero. -/
theorem claim_C2_rebuild_signal_witness :
    ([Event.resolveSpot "EUR",
      Event.buildFixingTable 15 [("EUR", [({ date := 12, time := 0 }, 110)])],
      Event.restate] : List (Event String)).countP Event.isApplyBump = 0 :=
  ((claim_C2_rebuild_signal exBump exExternals exInstruments exBumpable exDeps
      [Event.resolveSpot "EUR",
        Event.buildFixingTable 15 [("EUR", [({ date := 12, time := 0 }, 110)])],
        Event.restate]
      exInstruments true rfl rfl).2.1 rfl).2

/-- C4: no-fixings path — when the dependency model has no fixing date in
the window, a successful `apply` returns false, leaves the instruments
vector unchanged, and applies the generic spot-date bump exactly once. -/
theorem claim_C4_no_fixings {Inst : Type} (self : BumpTime) (ext : Externals Inst)
    (instruments : List (Value × Inst)) (bumpable : Bumpable Inst)
    (deps : DependencyCollector Inst) (tr : List (Event Inst))
    (final : List (Value × Inst)) (b : Bool)
    (hdep : bumpable.dependencies = Except.ok deps)
    (hW : ∀ id instrument, (id, instrument) ∈ deps.instruments →
      ∀ dt ∈ deps.fixings id, ¬ (bumpable.context.spot_date ≤ dt.date ∧
        dt.date < self.spot_date_bump.spot_date))
    (h : self.apply ext instruments bumpable = (tr, final, Except.ok b)) :
    b = false ∧ final = instruments ∧ tr.countP Event.isApplyBump = 1 := by
  have hW' : ∀ p ∈ deps.instruments, ∀ f ∈ deps.fixings p.1,
      inWindow bumpable.context.spot_date self.spot_date_bump.spot_date f = false := by
    rintro ⟨id, instrument⟩ hp f hf
    have hnot := hW id instrument hp f hf
    by_cases hw : inWindow bumpable.context.spot_date self.spot_date_bump.spot_date f = true
    · exact absurd ((inWindow_iff _ _ _).mp hw) hnot
    · revert hw
      cases inWindow bumpable.context.spot_date self.spot_date_bump.spot_date f <;> simp
  have hu := @update_instruments_no_window Inst self ext instruments bumpable.context deps hW'
  rcases hb2 : bumpable.bump (Bump.new_spot_date self.spot_date_bump) with e2 | u
  · simp only [BumpTime.apply, hdep, hu, Bool.not_false, if_true, hb2,
      Prod.mk.injEq] at h
    exact absurd h.2.2 (by simp)
  · simp only [BumpTime.apply, hdep, hu, Bool.not_false, if_true, hb2,
      Prod.mk.injEq] at h
    obtain ⟨h1, h2, h3⟩ := h
    rw [Except.ok.injEq] at h3
    refine ⟨h3.symm, h2.symm, ?_⟩
    rw [← h1]
    simp [List.countP_cons, Event.isApplyBump]

/-- Concrete witness for C4: shifting the example spot date from day 10 to
day 11 leaves the day-12 EUR fixing out of the window; the call reports no
rebuild, keeps the portfolio, and bumps the model once. -/
theorem claim_C4_no_fixings_witness :
    false = false ∧ exInstruments = exInstruments ∧
      ([Event.newSaveable,
        Event.applyBump (Bump.new_spot_date (BumpSpotDate.new 11 SpotDynamics.StickySpot))]
        : List (Event String)).countP Event.isApplyBump = 1 :=
  claim_C4_no_fixings (BumpTime.new 11 11 SpotDynamics.StickySpot) exExternals
    exInstruments exBumpable exDeps
    [Event.newSaveable,
      Event.applyBump (Bump.new_spot_date (BumpSpotDate.new 11 SpotDynamics.StickySpot))]
    exInstruments false rfl
    (by
      rintro id instrument hp dt hdt hbounds
      simp only [exBumpable, exDeps, exCtx, BumpTime.new, BumpSpotDate.new,
        List.mem_singleton, Prod.mk.injEq] at hp hdt hbounds
      obtain ⟨h1, -⟩ := hp
      subst h1
      rw [if_pos rfl] at hdt
      simp only [List.mem_singleton] at hdt
      subst hdt
      exact absurd hbounds.2 (by decide))
    rfl

/-- C5: policy value correctness — every value collected for a selected
fixing date is the one its policy prescribes: under sticky spot the
context's spot level for the identifier (independent of the instrument),
under sticky forward the value of the instrument's forward curve, anchored
at the new spot date, evaluated at the fixing date. -/
theorem claim_C5_policy_values {Inst : Type} (self : BumpTime)
    (context : PricingContext Inst) (dependencies : DependencyCollector Inst)
    (tr : List (Event Inst)) (m : FixingMap)
    (h : scanAll context self.spot_date_bump.spot_dynamics context.spot_date
      self.spot_date_bump.spot_date dependencies.fixings dependencies.instruments []
      = (tr, Except.ok m)) :
    ∀ id dt v, (dt, v) ∈ m.seqOf id →
      (self.spot_date_bump.spot_dynamics = SpotDynamics.StickySpot →
        context.spot id = Except.ok v) ∧
      (self.spot_date_bump.spot_dynamics = SpotDynamics.StickyForward →
        ∃ instrument, (id, instrument) ∈ dependencies.instruments ∧
          ∃ curve, context.forward_curve instrument self.spot_date_bump.spot_date
            = Except.ok curve ∧ curve.forward dt.date = Except.ok v) := by
  intro id dt v hmem
  rw [scanAll_ok_seqOf h id] at hmem
  obtain ⟨instrument, hpair, hcol⟩ := mem_collectedAll.mp hmem
  obtain ⟨hdt, hw, hok⟩ := mem_collectedOf.mp hcol
  constructor
  · intro hdyn
    rw [hdyn] at hok
    simpa [policyValue] using hok
  · intro hdyn
    rw [hdyn] at hok
    refine ⟨instrument, hpair, ?_⟩
    simp only [policyValue] at hok
    cases hc : context.forward_curve instrument self.spot_date_bump.spot_date with
    | error e => rw [hc] at hok; simp at hok
    | ok curve =>
      rw [hc] at hok
      exact ⟨curve, rfl, hok⟩

/-- Concrete witness for C5: the value collected for the day-12 EUR fixing
under sticky spot is the context's EUR spot, 110. -/
theorem claim_C5_policy_values_witness : exCtx.spot "EUR" = Except.ok 110 :=
  ((claim_C5_policy_values exBump exCtx exDeps [Event.resolveSpot "EUR"]
      [("EUR", [({ date := 12, time := 0 }, 110)])] rfl) "EUR"
    { date := 12, time := 0 } 110 (by simp [FixingMap.seqOf, FixingMap.lookupSeq])).1 rfl

/-- C8: discovery-order preservation — for an identifier tracked by
exactly one (id, instrument) pair, the sequence collected for it consists
of exactly that identifier's dependency fixing dates inside the window, in
the order the dependency model yields them (not sorted), each paired with
its policy value. -/
theorem claim_C8_discovery_order {Inst : Type} (self : BumpTime)
    (context : PricingContext Inst) (dependencies : DependencyCollector Inst)
    (tr : List (Event Inst)) (m : FixingMap) (id : Ident) (instrument : Inst)
    (h : scanAll context self.spot_date_bump.spot_dynamics context.spot_date
      self.spot_date_bump.spot_date dependencies.fixings dependencies.instruments []
      = (tr, Except.ok m))
    (hfilter : dependencies.instruments.filter (fun p => decide (p.1 = id))
      = [(id, instrument)]) :
    (m.seqOf id).map Prod.fst
      = (dependencies.fixings id).filter
          (inWindow context.spot_date self.spot_date_bump.spot_date) ∧
    ∀ p ∈ m.seqOf id, (policyValue context self.spot_date_bump.spot_dynamics
      self.spot_date_bump.spot_date id instrument p.1.date).2 = Except.ok p.2 := by
  have hmemp : (id, instrument) ∈ dependencies.instruments := by
    have hmemf : (id, instrument)
        ∈ dependencies.instruments.filter (fun p => decide (p.1 = id)) := by
      rw [hfilter]
      exact List.mem_singleton.mpr rfl
    exact List.mem_of_mem_filter hmemf
  have hseq : m.seqOf id = collectedOf context self.spot_date_bump.spot_dynamics
      context.spot_date self.spot_date_bump.spot_date id instrument
      (dependencies.fixings id) := by
    rw [scanAll_ok_seqOf h id, collectedAll_eq_of_filter hfilter]
  constructor
  · rw [hseq]
    exact collectedOf_map_fst
      (fun f hf hw => scanAll_ok_resolves h id instrument hmemp f hf hw)
  · intro p hp
    rw [hseq] at hp
    obtain ⟨dt, v⟩ := p
    obtain ⟨-, -, hok⟩ := mem_collectedOf.mp hp
    exact hok

/-- Concrete witness for C8: the EUR sequence collected on the example
fixtures projects to exactly the in-window fixing date list, day 12. -/
theorem claim_C8_discovery_order_witness :
    (FixingMap.seqOf [("EUR", [({ date := 12, time := 0 }, (110:Value))])] "EUR").map
        Prod.fst
      = (exDeps.fixings "EUR").filter (inWindow 10 15) :=
  (claim_C8_discovery_order exBump exCtx exDeps [Event.resolveSpot "EUR"]
    [("EUR", [({ date := 12, time := 0 }, 110)])] "EUR" "eurInst" rfl rfl).1

/-- C9: no empty fixing table — in any `update_instruments` call, the
`FixingTable` constructor is invoked (a build event appears in the trace)
iff the scan succeeded with a non-empty collected mapping; an empty window
never produces an empty-but-present table. -/
theorem claim_C9_no_empty_table {Inst : Type} (self : BumpTime) (ext : Externals Inst)
    (instruments : List (Value × Inst)) (context : PricingContext Inst)
    (dependencies : DependencyCollector Inst) (tr : List (Event Inst))
    (final : List (Value × Inst)) (res : Except Error Bool)
    (h : self.update_instruments ext instruments context dependencies
      = (tr, final, res)) :
    (∃ d mm, Event.buildFixingTable d mm ∈ tr) ↔
      (∃ trs fm, scanAll context self.spot_date_bump.spot_dynamics context.spot_date
        self.spot_date_bump.spot_date dependencies.fixings dependencies.instruments []
        = (trs, Except.ok fm) ∧ fm ≠ []) := by
  rcases hs : scanAll context self.spot_date_bump.spot_dynamics context.spot_date
      self.spot_date_bump.spot_date dependencies.fixings dependencies.instruments []
    with ⟨trs, rs⟩
  have hres := scanAll_events hs
  cases rs with
  | error e0 =>
    simp only [BumpTime.update_instruments, hs, Prod.mk.injEq] at h
    obtain ⟨h1, -⟩ := h
    subst h1
    constructor
    · rintro ⟨d, mm, hmem⟩
      exact absurd hmem (no_build_of_resolve hres d mm)
    · rintro ⟨trs2, fm, heq, -⟩
      rw [Prod.mk.injEq] at heq
      exact absurd heq.2 (by simp)
  | ok fm =>
    by_cases hfm : fm.isEmpty
    · have hfmnil : fm = [] := by
        cases fm with
        | nil => rfl
        | cons a rest => simp [List.isEmpty] at hfm
      simp only [BumpTime.update_instruments, hs, hfm, Bool.not_true, Bool.false_eq_true,
        if_false, Prod.mk.injEq] at h
      obtain ⟨h1, -⟩ := h
      subst h1
      constructor
      · rintro ⟨d, mm, hmem⟩
        exact absurd hmem (no_build_of_resolve hres d mm)
      · rintro ⟨trs2, fm2, heq, hne⟩
        rw [Prod.mk.injEq, Except.ok.injEq] at heq
        exact absurd (heq.2.symm.trans hfmnil) hne
    · have hfm' : fm.isEmpty = false := by
        revert hfm; cases fm.isEmpty <;> simp
      have hfmne : fm ≠ [] := by
        intro hnil; rw [hnil] at hfm'; simp at hfm'
      have hrhs : ∃ trs2 fm2, ((trs, Except.ok fm)
          : List (Event Inst) × Except Error FixingMap) = (trs2, Except.ok fm2) ∧
            fm2 ≠ [] := ⟨trs, fm, rfl, hfmne⟩
      cases hfmap : ext.from_map self.spot_date_bump.spot_date fm with
      | error e1 =>
        simp only [BumpTime.update_instruments, hs, hfm', Bool.not_false, if_true, hfmap,
          Prod.mk.injEq] at h
        obtain ⟨h1, -⟩ := h
        subst h1
        exact iff_of_true ⟨self.spot_date_bump.spot_date, fm, by simp⟩ hrhs
      | ok table =>
        cases hfix : ext.fix_all instruments table with
        | error e2 =>
          simp only [BumpTime.update_instruments, hs, hfm', Bool.not_false, if_true, hfmap,
            hfix, Prod.mk.injEq] at h
          obtain ⟨h1, -⟩ := h
          subst h1
          exact iff_of_true ⟨self.spot_date_bump.spot_date, fm, by simp⟩ hrhs
        | ok replacement =>
          simp only [BumpTime.update_instruments, hs, hfm', Bool.not_false, if_true, hfmap,
            hfix, Prod.mk.injEq] at h
          obtain ⟨h1, -⟩ := h
          subst h1
          exact iff_of_true ⟨self.spot_date_bump.spot_date, fm, by simp⟩ hrhs

/-- Concrete witness for C9: on the example fixtures the scan collects the
day-12 EUR fixing, so the trace of the call contains a build event. -/
theorem claim_C9_no_empty_table_witness :
    ∃ d mm, Event.buildFixingTable d mm
      ∈ ([Event.resolveSpot "EUR",
          Event.buildFixingTable 15 [("EUR", [({ date := 12, time := 0 }, 110)])],
          Event.restate] : List (Event String)) :=
  (claim_C9_no_empty_table exBump exExternals exInstruments exCtx exDeps
      [Event.resolveSpot "EUR",
        Event.buildFixingTable 15 [("EUR", [({ date := 12, time := 0 }, 110)])],
        Event.restate]
      exInstruments (Except.ok true) rfl).mpr
    ⟨[Event.resolveSpot "EUR"], [("EUR", [({ date := 12, time := 0 }, 110)])], rfl,
      by simp⟩

/-- C6 counterexample: under sticky-forward dynamics, scanning a
dependency model in which the single AAPL instrument has two fixing dates
(days 12 and 13) inside the window resolves that instrument's forward
curve twice in one scan pass, refuting "at most once per instrument". -/
theorem claim_C6_counterexample :
    ¬ ((scanAll exCtx SpotDynamics.StickyForward 10 15 exFwdDeps.fixings
        exFwdDeps.instruments []).1.countP
          (fun e => match e with
            | Event.resolveForwardCurve instrument _ => decide (instrument = "aaplInst")
            | _ => false) ≤ 1) := by
  decide

/-- C6 amended: under sticky-forward dynamics the forward curve is
refetched for every selected fixing rather than cached per instrument: in
a successful scan the number of forward-curve resolutions equals the total
number of in-window fixing dates summed over all (id, instrument) pairs of
the dependency model. -/
theorem claim_C6_amended {Inst : Type} (context : PricingContext Inst)
    (old_spot_date new_spot_date : Date) (fixings : Ident → List DateTime)
    (pairs : List (Ident × Inst)) (tr : List (Event Inst)) (m : FixingMap)
    (h : scanAll context SpotDynamics.StickyForward old_spot_date new_spot_date fixings
      pairs [] = (tr, Except.ok m)) :
    tr.countP Event.isResolveFwd
      = (pairs.map
          (fun p =>
            ((fixings p.1).filter (inWindow old_spot_date new_spot_date)).length)).sum :=
  scanAll_ok_count h

/-- Concrete witness for C6 (amended): the two-fixing AAPL example yields
exactly two forward-curve resolutions, the total number of in-window
fixings. -/
theorem claim_C6_amended_witness :
    ([Event.resolveForwardCurve "aaplInst" 15, Event.resolveForwardCurve "aaplInst" 15]
        : List (Event String)).countP Event.isResolveFwd
      = ((exFwdDeps.instruments.map
          (fun p => ((exFwdDeps.fixings p.1).filter (inWindow 10 15)).length)).sum) :=
  claim_C6_amended exCtx 10 15 exFwdDeps.fixings exFwdDeps.instruments
    [Event.resolveForwardCurve "aaplInst" 15, Event.resolveForwardCurve "aaplInst" 15]
    [("AAPL", [({ date := 12, time := 0 }, 12), ({ date := 13, time := 0 }, 13)])] rfl

end QuantMath
